import Mathlib

/-!
Verification of the multi-stream capture orchestration core of
youtube-screenshot-grabber.

Shallow embedding of:
  * `src/core/location.py`   — sun-time computation and the sunrise/sunset
    capture-window policy (`get_sun_times`, `is_near_sunset_or_sunrise`);
  * `src/core/screenshot.py` — `StreamInfoCache`, `StreamProcess`,
    `StreamManager`;
  * `src/core/scheduler.py`  — `Scheduler._should_capture`,
    `Scheduler._manage_processes`;
  * `src/main.py`            — `App.set_interval` (the caller that wires an
    interval change to `StreamManager.update_interval`).

Timestamps are modelled as `Int` seconds of local wall-clock time (the source
pins everything to the fixed-offset `Asia/Singapore` zone, so wall-clock
seconds form a single affine timeline and time-zone conversions are
identities).  The astral `sun()` call, which may raise for polar locations,
is modelled as a function `Int → Option SunTimes` (`none` = the call raised).
Logging is a side effect; the specific log events that claims mention are
modelled as explicit outputs (`Call.warnNoLocation`, `sun_times_error_logged`,
`both_flags_warning`).
-/

/-- Start of the (local wall-clock) day containing second `t`:
Python `date.replace(hour=0, ...)` on the seconds-since-epoch timeline. -/
def dayStart (t : Int) : Int := t - t % 86400

/-- Result of one astral `sun()` computation, local seconds. -/
structure SunTimes where
  sunrise : Int
  sunset : Int
deriving Repr, DecidableEq

/-- The astral sun computation for a fixed location: given a date (any second
of that day), either the computed times or `none` when `sun()` raises
(e.g. polar locations). -/
abbrev SunCalc : Type := Int → Option SunTimes

/-- `location.get_sun_times`: on success the astral result, on exception the
default times 06:00 / 18:00 of the given day
(`date.replace(hour=6, minute=0, second=0)` / `.replace(hour=18)`). -/
def get_sun_times (sc : SunCalc) (date : Int) : SunTimes :=
  match sc date with
  | some s => s
  | none => { sunrise := dayStart date + 21600, sunset := dayStart date + 64800 }

/-- The `except` branch of `location.get_sun_times` logs an error exactly when
the astral computation raised. -/
def get_sun_times_error_logged (sc : SunCalc) (date : Int) : Bool :=
  (sc date).isNone

/-- Membership test of `now` in `[center - window, center + window]`
(`start <= now <= end` in the source, boundaries inclusive). -/
def inWin (center window now : Int) : Bool :=
  decide (center - window ≤ now) && decide (now ≤ center + window)

/-- `location.is_near_sunset_or_sunrise` logs a warning exactly when both
mode flags are set. -/
def both_flags_warning (only_sunsets only_sunrises : Bool) : Bool :=
  only_sunsets && only_sunrises

/-- `location.is_near_sunset_or_sunrise`: decide whether `now` is inside a
capture window, returning `(in_window, event_kind)` with `event_kind` one of
`"sunrise"`, `"sunset"`, `""`.  `time_window` is minutes.  The two sunrise
windows (today, tomorrow) are checked before the two sunset windows
(yesterday, today); the source's early `return` on the first matching window
of a kind is the disjunction of the two membership tests of that kind. -/
def is_near_sunset_or_sunrise (sc : SunCalc) (time_window : Int)
    (only_sunsets only_sunrises : Bool) (now : Int) : Bool × String :=
  let both := only_sunsets && only_sunrises
  let os := if both then false else only_sunsets
  let orr := if both then false else only_sunrises
  let sun_times := get_sun_times sc now
  let tomorrow_sun_times := get_sun_times sc (now + 86400)
  let yesterday_sun_times := get_sun_times sc (now - 86400)
  let window := 60 * time_window
  if (orr || (!os && !orr)) &&
      (inWin sun_times.sunrise window now ||
       inWin tomorrow_sun_times.sunrise window now) then
    (true, "sunrise")
  else if (os || (!os && !orr)) &&
      (inWin yesterday_sun_times.sunset window now ||
       inWin sun_times.sunset window now) then
    (true, "sunset")
  else
    (false, "")

/-- The astral computation that always raises (polar location). -/
def failingCalc : SunCalc := fun _ => none

/-- The default times `get_sun_times` substitutes on failure, as a total
calculation. -/
def defaultSunTimes (date : Int) : SunTimes :=
  { sunrise := dayStart date + 21600, sunset := dayStart date + 64800 }

/-! ## Association-list primitives

Python `dict` operations, modelled on association lists keyed by `String`
(membership test / lookup finds the first matching key; `del` removes it;
assignment replaces it in place or appends a new key at the end, which is
Python's insertion-order semantics). -/

/-- `key in d` / `d[key]` (first occurrence). -/
def alookup {α : Type} : List (String × α) → String → Option α
  | [], _ => none
  | (k, v) :: rest, key => if k = key then some v else alookup rest key

/-- `del d[key]` (removes the first occurrence, no-op when absent). -/
def aerase {α : Type} : List (String × α) → String → List (String × α)
  | [], _ => []
  | (k, v) :: rest, key => if k = key then rest else (k, v) :: aerase rest key

/-- `d[key] = v` (replace in place, or append a fresh key at the end). -/
def aset {α : Type} : List (String × α) → String → α → List (String × α)
  | [], key, v => [(key, v)]
  | (k, w) :: rest, key, v =>
    if k = key then (k, v) :: rest else (k, w) :: aset rest key v

/-! ## StreamInfoCache (`src/core/screenshot.py`) -/

/-- The resolved stream metadata dict built by
`ScreenshotCapture.get_stream_info`. -/
structure StreamInfo where
  url : String
  resolution : String
  preferred_resolution : String
  title : String
  format_id : String
deriving Repr, DecidableEq

/-- `StreamInfoCache._cache`: url ↦ (info, timestamp-of-set). -/
abbrev CacheMap : Type := List (String × (StreamInfo × Int))

/-- `StreamInfoCache.__init__` default `cache_duration` (3 hours, seconds). -/
def default_cache_duration : Int := 10800

namespace StreamInfoCache

/-- `StreamInfoCache.get` at wall-clock second `now` with cache duration
`dur`: returns the cached info only while `now - timestamp < dur`, otherwise
deletes the entry; also returns the cache state after the call. -/
def get (c : CacheMap) (url : String) (now dur : Int) :
    Option StreamInfo × CacheMap :=
  match alookup c url with
  | some (info, timestamp) =>
    if now - timestamp < dur then (some info, c) else (none, aerase c url)
  | none => (none, c)

/-- `StreamInfoCache.set` at wall-clock second `now`. -/
def set (c : CacheMap) (url : String) (info : StreamInfo) (now : Int) :
    CacheMap :=
  aset c url (info, now)

/-- `StreamInfoCache.clear`. -/
def clear (_c : CacheMap) : CacheMap := []

end StreamInfoCache

/-! ## StreamProcess / StreamManager (`src/core/screenshot.py`) -/

/-- The per-stream construction parameters of `StreamProcess.__init__`,
plus the pause flag (`pause_event` cleared). The OS-process handle itself is
runtime machinery outside the state the claims are about. -/
structure Worker where
  url : String
  output_path : String
  interval : Int
  resolution : String
  paused : Bool
deriving Repr, DecidableEq

/-- `StreamManager.streams`: url ↦ worker. -/
abbrev Streams : Type := List (String × Worker)

/-- Lifecycle side effects the manager performs on workers
(`StreamProcess.start/stop/pause`), in call order. -/
inductive Act where
  | start (url : String)
  | stop (url : String)
  | pauseStream (url : String)
deriving Repr, DecidableEq

namespace StreamManager

/-- `StreamManager.remove_stream`: if present, `StreamProcess.stop()` then
`del`; returns the new map and the worker calls made. -/
def remove_stream (s : Streams) (url : String) : Streams × List Act :=
  match alookup s url with
  | some _ => (aerase s url, [Act.stop url])
  | none => (s, [])

/-- `StreamManager.add_stream`: replace any existing worker for `url`
(stopping it first), create and start a fresh one, pausing it immediately
when the global pause flag is set. -/
def add_stream (s : Streams) (url output_path : String) (interval : Int)
    (resolution : String) (paused : Bool) : Streams × List Act :=
  let r :=
    match alookup s url with
    | some _ => remove_stream s url
    | none => (s, [])
  let w : Worker := ⟨url, output_path, interval, resolution, paused⟩
  (aset r.1 url w,
    r.2 ++ [Act.start url] ++ (if paused then [Act.pauseStream url] else []))

/-- The loop body of `StreamManager.update_interval` over the snapshot
`list(self.streams.keys())`: re-read the worker, remove it, re-add it with
the new interval and the saved output path / resolution.  A missing key is
unreachable (each processed url is re-inserted before the next iteration). -/
def updateIntervalGo (interval : Int) :
    List String → Streams → Streams × List Act
  | [], st => (st, [])
  | url :: rest, st =>
    match alookup st url with
    | none => updateIntervalGo interval rest st
    | some w =>
      let r1 := remove_stream st url
      let r2 := add_stream r1.1 url w.output_path interval w.resolution false
      let r3 := updateIntervalGo interval rest r2.1
      (r3.1, r1.2 ++ r2.2 ++ r3.2)

/-- `StreamManager.update_interval`. -/
def update_interval (s : Streams) (interval : Int) : Streams × List Act :=
  updateIntervalGo interval (s.map Prod.fst) s

/-- The effect of `StreamManager.stop_all` (thread-pooled `remove_stream`
over the key snapshot; the map effect is order-independent, the call order
recorded here is the snapshot order). -/
def stopAllGo : List String → Streams → Streams × List Act
  | [], st => (st, [])
  | url :: rest, st =>
    let r1 := remove_stream st url
    let r2 := stopAllGo rest r1.1
    (r2.1, r1.2 ++ r2.2)

/-- `StreamManager.stop_all`. -/
def stop_all (s : Streams) : Streams × List Act :=
  stopAllGo (s.map Prod.fst) s

end StreamManager

/-- The `StreamManager` operations a caller can perform (as exercised from
`src/main.py`). -/
inductive ManagerOp where
  | add (url output_path : String) (interval : Int) (resolution : String)
      (paused : Bool)
  | remove (url : String)
  | updateInterval (interval : Int)
  | stopAllOp
deriving Repr, DecidableEq

/-- State effect of one `StreamManager` operation. -/
def StreamManager.applyOp (s : Streams) : ManagerOp → Streams
  | .add url o n r p => (StreamManager.add_stream s url o n r p).1
  | .remove url => (StreamManager.remove_stream s url).1
  | .updateInterval n => (StreamManager.update_interval s n).1
  | .stopAllOp => (StreamManager.stop_all s).1

/-- Run a sequence of manager operations from the initial empty map
(`StreamManager.__init__`). -/
def StreamManager.runOps (ops : List ManagerOp) : Streams :=
  ops.foldl StreamManager.applyOp []

/-! ## App-level wiring (`src/main.py`) -/

/-- The pieces of `App` state that an interval change can touch: the
supervisor's worker map and the app-level `ScreenshotCapture.stream_cache`. -/
structure CaptureSystem where
  streams : Streams
  cache : CacheMap
deriving Repr, DecidableEq

/-- `App.set_interval`: persists the setting, updates the scheduler interval
and calls `StreamManager.update_interval`; it makes no call into any
`StreamInfoCache`, so the cache component is carried through unchanged. -/
def App.set_interval (sys : CaptureSystem) (interval : Int) :
    CaptureSystem × List Act :=
  let r := StreamManager.update_interval sys.streams interval
  ({ streams := r.1, cache := sys.cache }, r.2)

/-! ## Scheduler (`src/core/scheduler.py`) -/

/-- The settings the window policy reads
(`time_window`, `only_sunsets`, `only_sunrises`). -/
structure PolicySettings where
  time_window : Int
  only_sunsets : Bool
  only_sunrises : Bool
deriving Repr, DecidableEq

/-- The tick-to-tick scheduler state: `Scheduler._was_in_window` and
`Scheduler._current_event_type`. -/
structure SchedState where
  was_in_window : Bool
  current_event_type : String
deriving Repr, DecidableEq

/-- The external calls one `Scheduler._manage_processes` tick can make, in
call order: `_start_processes_for_all_urls(event, force)`,
`stream_manager.stop_all()`,
`convert_subfolders_to_clips_and_cleanup(event)`, `quit()`, and the
no-location warning log. -/
inductive Call where
  | startAll (event : String) (force : Bool)
  | stopAll
  | convert (event : String)
  | quit
  | warnNoLocation
deriving Repr, DecidableEq

/-- `Scheduler._should_capture`: capture decision for the current second.
A set location is carried as its sun computation. -/
def Scheduler.should_capture (paused schedule_enabled : Bool)
    (location : Option SunCalc) (ps : PolicySettings) (now : Int) : Bool :=
  if paused then false
  else if !schedule_enabled then true
  else
    match location with
    | none => true
    | some sc =>
      (is_near_sunset_or_sunrise sc ps.time_window ps.only_sunsets
        ps.only_sunrises now).1

/-- One `Scheduler._manage_processes` tick: new tick state and the calls
made, in order. -/
def Scheduler.manage_processes (paused schedule_enabled shutdown_when_done :
    Bool) (location : Option SunCalc) (ps : PolicySettings) (now : Int)
    (st : SchedState) : SchedState × List Call :=
  if paused then (st, [])
  else if schedule_enabled then
    match location with
    | none =>
      ({ st with was_in_window := true },
        [Call.warnNoLocation, Call.startAll "" true])
    | some sc =>
      match is_near_sunset_or_sunrise sc ps.time_window ps.only_sunsets
          ps.only_sunrises now with
      | (true, event) =>
        ({ was_in_window := true, current_event_type := event },
          [Call.startAll event false])
      | (false, _) =>
        if st.was_in_window then
          ({ was_in_window := false, current_event_type := "" },
            [Call.stopAll, Call.convert st.current_event_type] ++
              (if shutdown_when_done then [Call.quit] else []))
        else
          ({ was_in_window := false, current_event_type := "" }, [])
  else
    ({ st with was_in_window := true }, [Call.startAll "" true])

/-- The window-exit edge of one tick: the previous tick had been in-window
(`_was_in_window`) and this tick's policy evaluation is out-of-window (only
reachable when not paused, scheduling enabled and a location is set). -/
def Scheduler.exit_edge (paused schedule_enabled : Bool)
    (location : Option SunCalc) (ps : PolicySettings) (now : Int)
    (st : SchedState) : Bool :=
  !paused && schedule_enabled &&
    (match location with
     | none => false
     | some sc =>
       !(is_near_sunset_or_sunrise sc ps.time_window ps.only_sunsets
          ps.only_sunrises now).1) &&
    st.was_in_window

/-- Recognizer for `Call.stopAll`. -/
def Call.isStopAll : Call → Bool
  | .stopAll => true
  | _ => false

/-- Recognizer for `Call.convert _`. -/
def Call.isConvert : Call → Bool
  | .convert _ => true
  | _ => false


/-- The stop/start pairs `StreamManager.update_interval` performs, one pair
per worker in map order. -/
def restartActs : Streams → List Act
  | [] => []
  | p :: rest => Act.stop p.1 :: Act.start p.1 :: restartActs rest

/-! ## Filename sanitization (`ScreenshotCapture._clean_filename`) -/

/-- The `invalid_chars` string of `_clean_filename`. -/
def invalidChars : List Char := ['<', '>', ':', '"', '/', '\\', '|', '?', '*']

/-- The ASCII characters Python `str.strip()` removes (the ASCII code points
for which `str.isspace()` holds). -/
def isPySpace (c : Char) : Bool :=
  ([9, 10, 11, 12, 13, 28, 29, 30, 31, 32] : List Nat).contains c.toNat

/-- First loop of `_clean_filename`: each invalid character is replaced by
an underscore. -/
def replaceInvalid (l : List Char) : List Char :=
  l.map fun c => if invalidChars.contains c then '_' else c

/-- Second step of `_clean_filename`: keep only characters with
`ord(char) < 128`. -/
def asciiOnly (l : List Char) : List Char :=
  l.filter fun c => decide (c.toNat < 128)

/-- Split a (separator-free) name at its last dot: `some (root, ext)` with
`ext` starting at the last dot, `none` when there is no dot. -/
def splitAtLastDot : List Char → Option (List Char × List Char)
  | [] => none
  | c :: cs =>
    match splitAtLastDot cs with
    | some r => some (c :: r.1, r.2)
    | none => if c = '.' then some ([], c :: cs) else none

/-- `os.path.splitext` on a name containing no path separators (always the
case after `replaceInvalid`, which rewrote `/` and `\x5c` to `_`): split at
the last dot unless every character before it is itself a dot (a leading-dots
name such as `.bashrc` has no extension). -/
def splitext (l : List Char) : List Char × List Char :=
  match splitAtLastDot l with
  | none => (l, [])
  | some r => if r.1.all (· = '.') then (l, []) else r

/-- Length-limiting step of `_clean_filename`: names longer than 200
characters are cut to the first 196 characters of the root plus the
extension. -/
def limitLength (l : List Char) : List Char :=
  if 200 < l.length then (splitext l).1.take 196 ++ (splitext l).2 else l

/-- Python `str.strip()` restricted to ASCII content: drop `isPySpace`
characters from both ends. -/
def pyStrip (l : List Char) : List Char :=
  (((l.dropWhile isPySpace).reverse).dropWhile isPySpace).reverse

/-- `ScreenshotCapture._clean_filename` on the character list of the input
string. -/
def clean_filename (l : List Char) : List Char :=
  pyStrip (limitLength (asciiOnly (replaceInvalid l)))

/-- A character the sanitized filename may contain: ASCII and not one of the
invalid characters. -/
def goodChar (c : Char) : Bool :=
  decide (c.toNat < 128) && !(invalidChars.contains c)

/-! ## Claim theorems -/

/-- Claim C1, as stated, is false: with a sun computation that raises (polar
location) and the default settings (30-minute window, both modes), evaluating
the window policy at noon of day 0 yields `in_window = false`, not the
claimed fail-open `in_window = true`.  (The evaluation does not raise — it
falls back to the default 06:00/18:00 sun times, and noon is outside both
default windows.) -/
theorem policy_failure_not_fail_open_counterexample :
    is_near_sunset_or_sunrise failingCalc 30 false false 43200 =
      (false, "") ∧
    get_sun_times_error_logged failingCalc 43200 = true := by
  constructor
  · decide
  · rfl

/-- Claim C1 (amended): when the internal sunrise/sunset computation fails at
the three queried dates, the window-policy evaluation does not raise: it
reports the failure and substitutes the default sun times (06:00 sunrise,
18:00 sunset of the respective day), and the decision is exactly the one
computed from those default times — which need not be `in_window = true`. -/
theorem policy_failure_falls_back_to_default_times (sc : SunCalc)
    (tw : Int) (os orr : Bool) (now : Int)
    (h1 : sc now = none) (h2 : sc (now + 86400) = none)
    (h3 : sc (now - 86400) = none) :
    is_near_sunset_or_sunrise sc tw os orr now =
      is_near_sunset_or_sunrise (fun d => some (defaultSunTimes d)) tw os orr
        now ∧
    get_sun_times sc now = defaultSunTimes now ∧
    get_sun_times_error_logged sc now = true := by
  refine ⟨?_, ?_, ?_⟩
  · simp [is_near_sunset_or_sunrise, get_sun_times, h1, h2, h3,
      defaultSunTimes]
  · simp [get_sun_times, h1, defaultSunTimes]
  · simp [get_sun_times_error_logged, h1]

/-- Witness for C1's amended theorem at the always-failing computation. -/
theorem policy_failure_falls_back_witness :
    is_near_sunset_or_sunrise failingCalc 30 false false 43200 =
      is_near_sunset_or_sunrise (fun d => some (defaultSunTimes d)) 30 false
        false 43200 ∧
    get_sun_times failingCalc 43200 = defaultSunTimes 43200 ∧
    get_sun_times_error_logged failingCalc 43200 = true :=
  policy_failure_falls_back_to_default_times failingCalc 30 false false 43200
    rfl rfl rfl

/-- Claim C4: with `schedule_enabled = false` and the scheduler not paused,
the capture decision is `true` for every location (set or unset), every
policy setting and every timestamp; the tick then instructs all configured
streams to run. -/
theorem schedule_disabled_always_captures (location : Option SunCalc)
    (ps : PolicySettings) (now : Int) (shutdown : Bool) (st : SchedState) :
    Scheduler.should_capture false false location ps now = true ∧
    (Scheduler.manage_processes false false shutdown location ps now st).2 =
      [Call.startAll "" true] :=
  ⟨rfl, rfl⟩

/-- Claim C8: with scheduling enabled but no location configured (and the
scheduler not paused), the capture decision is `true` for every timestamp and
every setting, the tick logs a warning, and the start instruction carries no
event kind. -/
theorem no_location_fail_open (ps : PolicySettings) (now : Int)
    (shutdown : Bool) (st : SchedState) :
    Scheduler.should_capture false true none ps now = true ∧
    Scheduler.manage_processes false true shutdown none ps now st =
      ({ st with was_in_window := true },
        [Call.warnNoLocation, Call.startAll "" true]) :=
  ⟨rfl, rfl⟩

/-- Claim C9: setting both `only_sunsets` and `only_sunrises` makes the
window policy behave exactly as if both flags were false ("both" mode), and
this flag combination is the one that triggers the warning log. -/
theorem both_flags_treated_as_both_mode (sc : SunCalc) (tw : Int)
    (now : Int) :
    is_near_sunset_or_sunrise sc tw true true now =
      is_near_sunset_or_sunrise sc tw false false now ∧
    both_flags_warning true true = true :=
  ⟨rfl, rfl⟩

/-- Claim C7: window membership is inclusive at both boundaries — for every
sun-time computation and non-negative window the exact boundary instants
`event ± window` are in-window; and in the concrete 06:00-sunrise /
30-minute scenario, 05:30:00 and 06:30:00 (seconds 19800 and 23400 of day 0)
are in-window while 05:29:59 and 06:30:01 are not. -/
theorem window_boundaries_inclusive :
    (∀ (st : SunTimes) (tw : Int), 0 ≤ tw →
      (is_near_sunset_or_sunrise (fun _ => some st) tw false false
        (st.sunrise - 60 * tw)).1 = true ∧
      (is_near_sunset_or_sunrise (fun _ => some st) tw false false
        (st.sunrise + 60 * tw)).1 = true ∧
      (is_near_sunset_or_sunrise (fun _ => some st) tw false false
        (st.sunset - 60 * tw)).1 = true ∧
      (is_near_sunset_or_sunrise (fun _ => some st) tw false false
        (st.sunset + 60 * tw)).1 = true) ∧
    is_near_sunset_or_sunrise (fun d => some (defaultSunTimes d)) 30 false
      false 19800 = (true, "sunrise") ∧
    is_near_sunset_or_sunrise (fun d => some (defaultSunTimes d)) 30 false
      false 23400 = (true, "sunrise") ∧
    (is_near_sunset_or_sunrise (fun d => some (defaultSunTimes d)) 30 false
      false 19799).1 = false ∧
    (is_near_sunset_or_sunrise (fun d => some (defaultSunTimes d)) 30 false
      false 23401).1 = false := by
  refine ⟨?_, by decide, by decide, by decide, by decide⟩
  intro st tw htw
  have h1 : inWin st.sunrise (60 * tw) (st.sunrise - 60 * tw) = true := by
    simp [inWin]; omega
  have h2 : inWin st.sunrise (60 * tw) (st.sunrise + 60 * tw) = true := by
    simp [inWin]; omega
  have h3 : inWin st.sunset (60 * tw) (st.sunset - 60 * tw) = true := by
    simp [inWin]; omega
  have h4 : inWin st.sunset (60 * tw) (st.sunset + 60 * tw) = true := by
    simp [inWin]; omega
  refine ⟨?_, ?_, ?_, ?_⟩
  · simp [is_near_sunset_or_sunrise, get_sun_times, h1]
  · simp [is_near_sunset_or_sunrise, get_sun_times, h2]
  · simp [is_near_sunset_or_sunrise, get_sun_times, h3]
    split <;> rfl
  · simp [is_near_sunset_or_sunrise, get_sun_times, h4]
    split <;> rfl

/-- Witness for C7 at a concrete sun time and window. -/
theorem window_boundaries_inclusive_witness :
    (is_near_sunset_or_sunrise (fun _ => some ⟨21600, 64800⟩) 30 false false
      (21600 - 60 * 30)).1 = true :=
  (window_boundaries_inclusive.1 ⟨21600, 64800⟩ 30 (by decide)).1

/-- `aset` stores the value under the key. -/
theorem alookup_aset_self {α : Type} :
    ∀ (l : List (String × α)) (k : String) (v : α),
      alookup (aset l k v) k = some v
  | [], k, v => by simp [aset, alookup]
  | (a, b) :: rest, k, v => by
    by_cases h : a = k
    · simp [aset, alookup, h]
    · simp [aset, alookup, h, alookup_aset_self rest k v]

/-- Keys after `aset`: the old keys plus possibly the new one. -/
theorem mem_keys_aset {α : Type} :
    ∀ (l : List (String × α)) (k k2 : String) (v : α),
      k2 ∈ (aset l k v).map Prod.fst ↔ k2 ∈ l.map Prod.fst ∨ k2 = k
  | [], k, k2, v => by simp [aset]
  | (a, b) :: rest, k, k2, v => by
    by_cases h : a = k
    · subst h; by_cases h2 : k2 = a <;> simp [aset, h2]
    · simp [aset, h, mem_keys_aset rest k k2 v, or_assoc]

/-- `aset` preserves distinctness of keys. -/
theorem nodup_keys_aset {α : Type} :
    ∀ (l : List (String × α)) (k : String) (v : α),
      (l.map Prod.fst).Nodup → ((aset l k v).map Prod.fst).Nodup
  | [], k, v, _ => by simp [aset]
  | (a, b) :: rest, k, v, h => by
    rw [List.map_cons, List.nodup_cons] at h
    by_cases hak : a = k
    · simpa [aset, hak, List.nodup_cons] using h
    · rw [aset, if_neg hak, List.map_cons, List.nodup_cons]
      exact ⟨fun hmem => by
          rcases (mem_keys_aset rest k a v).1 hmem with h1 | h1
          · exact h.1 h1
          · exact hak h1,
        nodup_keys_aset rest k v h.2⟩

/-- Lookup misses exactly the absent keys. -/
theorem alookup_eq_none_of_not_mem {α : Type} :
    ∀ (l : List (String × α)) (k : String),
      k ∉ l.map Prod.fst → alookup l k = none
  | [], k, _ => rfl
  | (a, b) :: rest, k, h => by
    simp only [List.map_cons, List.mem_cons, not_or] at h
    have hak : ¬a = k := fun hh => h.1 hh.symm
    simp [alookup, hak, alookup_eq_none_of_not_mem rest k h.2]

/-- With distinct keys, the erased key is gone from the map. -/
theorem not_mem_keys_aerase_self {α : Type} :
    ∀ (l : List (String × α)) (k : String),
      (l.map Prod.fst).Nodup → k ∉ (aerase l k).map Prod.fst
  | [], k, _ => by simp [aerase]
  | (a, b) :: rest, k, h => by
    rw [List.map_cons, List.nodup_cons] at h
    by_cases hak : a = k
    · subst hak; simpa [aerase] using h.1
    · rw [aerase, if_neg hak, List.map_cons]
      intro hmem
      rcases List.mem_cons.1 hmem with h1 | h1
      · exact hak h1.symm
      · exact not_mem_keys_aerase_self rest k h.2 h1

/-- Claim C2: after `set(id, info)` at time `t1` with cache duration `dur`,
a `get(id)` strictly before the expiry `t1 + dur` returns exactly `info` and
leaves the cache unchanged; a `get(id)` at or after the expiry returns
absent, and its only side effect is evicting the entry (the resulting state
is precisely the erase of that key, whose lookup is then absent).  `get` is a
total function, so it cannot raise. -/
theorem cache_round_trip (c : CacheMap) (url : String) (info : StreamInfo)
    (t1 t2 dur : Int) (hnd : (c.map Prod.fst).Nodup) :
    (t2 < t1 + dur →
      StreamInfoCache.get (StreamInfoCache.set c url info t1) url t2 dur =
        (some info, StreamInfoCache.set c url info t1)) ∧
    (t1 + dur ≤ t2 →
      StreamInfoCache.get (StreamInfoCache.set c url info t1) url t2 dur =
        (none, aerase (StreamInfoCache.set c url info t1) url) ∧
      alookup (aerase (StreamInfoCache.set c url info t1) url) url =
        none) := by
  have hl : alookup (StreamInfoCache.set c url info t1) url =
      some (info, t1) := alookup_aset_self c url (info, t1)
  constructor
  · intro h
    simp [StreamInfoCache.get, hl]
    omega
  · intro h
    have hnd2 : ((StreamInfoCache.set c url info t1).map Prod.fst).Nodup :=
      nodup_keys_aset c url (info, t1) hnd
    refine ⟨?_, alookup_eq_none_of_not_mem _ url
      (not_mem_keys_aerase_self _ url hnd2)⟩
    simp [StreamInfoCache.get, hl]
    omega

/-- Witness for C2 on an empty cache with the default 3-hour duration:
a hit one second after `set`, a miss exactly at expiry. -/
theorem cache_round_trip_witness :
    StreamInfoCache.get
        (StreamInfoCache.set [] "u" ⟨"u", "1080p", "1080p", "t", "f"⟩ 0) "u"
        1 default_cache_duration =
      (some ⟨"u", "1080p", "1080p", "t", "f"⟩,
        StreamInfoCache.set [] "u" ⟨"u", "1080p", "1080p", "t", "f"⟩ 0) ∧
    (StreamInfoCache.get
        (StreamInfoCache.set [] "u" ⟨"u", "1080p", "1080p", "t", "f"⟩ 0) "u"
        default_cache_duration default_cache_duration).1 = none :=
  ⟨(cache_round_trip [] "u" ⟨"u", "1080p", "1080p", "t", "f"⟩ 0 1
      default_cache_duration (by decide)).1 (by decide),
    by
      rw [((cache_round_trip [] "u" ⟨"u", "1080p", "1080p", "t", "f"⟩ 0
        default_cache_duration default_cache_duration (by decide)).2
        (by decide)).1]⟩

/-- Claim C5: a tick calls `stop_all` exactly once and the post-window
cleanup exactly once precisely on a window-exit edge (previous tick
in-window, this tick's policy evaluation out-of-window, scheduling enabled,
not paused); the cleanup receives the event kind recorded while the window
was active, and `stop_all` precedes it.  On every other tick neither call is
made. -/
theorem scheduler_window_exit_edge (paused enabled shutdown : Bool)
    (location : Option SunCalc) (ps : PolicySettings) (now : Int)
    (st : SchedState) :
    ((Scheduler.manage_processes paused enabled shutdown location ps now
        st).2.countP Call.isStopAll =
      if Scheduler.exit_edge paused enabled location ps now st then 1
      else 0) ∧
    ((Scheduler.manage_processes paused enabled shutdown location ps now
        st).2.countP Call.isConvert =
      if Scheduler.exit_edge paused enabled location ps now st then 1
      else 0) ∧
    (Scheduler.exit_edge paused enabled location ps now st = true →
      (Scheduler.manage_processes paused enabled shutdown location ps now
        st).2.take 2 =
        [Call.stopAll, Call.convert st.current_event_type]) := by
  cases paused with
  | true =>
    simp [Scheduler.manage_processes, Scheduler.exit_edge]
  | false =>
    cases enabled with
    | false =>
      simp [Scheduler.manage_processes, Scheduler.exit_edge, Call.isStopAll,
        Call.isConvert, List.countP, List.countP.go]
    | true =>
      cases location with
      | none =>
        simp [Scheduler.manage_processes, Scheduler.exit_edge,
          Call.isStopAll, Call.isConvert, List.countP, List.countP.go]
      | some sc =>
        rcases hr : is_near_sunset_or_sunrise sc ps.time_window
          ps.only_sunsets ps.only_sunrises now with ⟨b, e⟩
        cases b with
        | true =>
          simp [Scheduler.manage_processes, Scheduler.exit_edge, hr,
            Call.isStopAll, Call.isConvert, List.countP, List.countP.go]
        | false =>
          cases hw : st.was_in_window with
          | false =>
            simp [Scheduler.manage_processes, Scheduler.exit_edge, hr, hw,
              List.countP, List.countP.go]
          | true =>
            cases shutdown with
            | false =>
              simp [Scheduler.manage_processes, Scheduler.exit_edge, hr, hw,
                Call.isStopAll, Call.isConvert, List.countP, List.countP.go]
            | true =>
              simp [Scheduler.manage_processes, Scheduler.exit_edge, hr, hw,
                Call.isStopAll, Call.isConvert, List.countP, List.countP.go]

/-- Witness for C5 on a concrete window-exit edge: out-of-window at noon
under a failing sun computation, with the sunrise window having been
active. -/
theorem scheduler_window_exit_edge_witness :
    (Scheduler.manage_processes false true false (some failingCalc)
      ⟨30, false, false⟩ 43200 ⟨true, "sunrise"⟩).2.take 2 =
      [Call.stopAll, Call.convert "sunrise"] :=
  (scheduler_window_exit_edge false true false (some failingCalc)
    ⟨30, false, false⟩ 43200 ⟨true, "sunrise"⟩).2.2 (by decide)

/-- `aset` on an absent key appends the binding at the end. -/
theorem aset_append_of_not_mem {α : Type} :
    ∀ (l : List (String × α)) (k : String) (v : α),
      k ∉ l.map Prod.fst → aset l k v = l ++ [(k, v)]
  | [], k, v, _ => rfl
  | (a, b) :: rest, k, v, h => by
    simp only [List.map_cons, List.mem_cons, not_or] at h
    have hak : ¬a = k := fun hh => h.1 hh.symm
    simp [aset, hak, aset_append_of_not_mem rest k v h.2]

/-- The `update_interval` loop over the snapshot of the keys of `st`, run on
a map that additionally holds already-processed entries `extra` with keys
disjoint from the snapshot: every snapshot worker is removed and re-added
with the new interval (emitting one stop and one start per worker, in map
order), the processed entries keep their relative order behind `extra`. -/
theorem updateIntervalGo_spec (n : Int) :
    ∀ (st extra : Streams),
      (st.map Prod.fst).Nodup →
      (∀ u ∈ st.map Prod.fst, u ∉ extra.map Prod.fst) →
      StreamManager.updateIntervalGo n (st.map Prod.fst) (st ++ extra) =
        (extra ++ st.map (fun p =>
            (p.1, Worker.mk p.1 p.2.output_path n p.2.resolution false)),
          restartActs st)
  | [], extra, _, _ => by
    simp [StreamManager.updateIntervalGo, restartActs]
  | (u, w) :: rest, extra, hnd, hdisj => by
    rw [List.map_cons, List.nodup_cons] at hnd
    have hu_rest : u ∉ rest.map Prod.fst := hnd.1
    have hu_extra : u ∉ extra.map Prod.fst := hdisj u (by simp)
    have hmem : u ∉ (rest ++ extra).map Prod.fst := by
      rw [List.map_append]
      simp only [List.mem_append]
      rintro (h1 | h1)
      · exact hu_rest h1
      · exact hu_extra h1
    have hlook : alookup (rest ++ extra) u = none :=
      alookup_eq_none_of_not_mem _ u hmem
    have haset :
        aset (rest ++ extra) u
          (Worker.mk u w.output_path n w.resolution false) =
        (rest ++ extra) ++
          [(u, Worker.mk u w.output_path n w.resolution false)] :=
      aset_append_of_not_mem _ _ _ hmem
    have hdisj2 : ∀ v ∈ rest.map Prod.fst,
        v ∉ (extra ++
          [(u, Worker.mk u w.output_path n w.resolution false)]).map
          Prod.fst := by
      intro v hv
      rw [List.map_append]
      simp only [List.mem_append, List.map_cons, List.map_nil,
        List.mem_singleton, not_or]
      exact ⟨hdisj v (by simp [hv]), fun heq => hu_rest (heq ▸ hv)⟩
    have ih := updateIntervalGo_spec n rest
      (extra ++ [(u, Worker.mk u w.output_path n w.resolution false)])
      hnd.2 hdisj2
    rw [List.append_assoc] at ih
    simp only [List.map_cons, List.cons_append, StreamManager.updateIntervalGo,
      StreamManager.remove_stream, StreamManager.add_stream, alookup, aerase,
      if_pos rfl, hlook, haset, ih, restartActs]
    simp [hlook, haset, ih, List.append_assoc]

/-- `StreamManager.update_interval` on a map with distinct keys: every worker
is replaced by a fresh one with the new interval, same key, same output path
and resolution (and unpaused), with one stop and one start per worker in map
order. -/
theorem update_interval_eq (s : Streams) (n : Int)
    (hnd : (s.map Prod.fst).Nodup) :
    StreamManager.update_interval s n =
      (s.map (fun p =>
          (p.1, Worker.mk p.1 p.2.output_path n p.2.resolution false)),
        restartActs s) := by
  have h := updateIntervalGo_spec n s [] hnd (by simp)
  simpa [StreamManager.update_interval] using h

/-- `aerase` removes at most one binding, keeping the rest in place. -/
theorem aerase_sublist {α : Type} :
    ∀ (l : List (String × α)) (k : String),
      List.Sublist (aerase l k) l
  | [], _ => List.Sublist.refl []
  | (a, b) :: rest, k => by
    by_cases h : a = k
    · rw [aerase, if_pos h]
      exact List.sublist_cons_self _ _
    · rw [aerase, if_neg h]
      exact (aerase_sublist rest k).cons₂ _

/-- `aerase` preserves distinctness of keys. -/
theorem nodup_keys_aerase {α : Type} (l : List (String × α)) (k : String)
    (h : (l.map Prod.fst).Nodup) : ((aerase l k).map Prod.fst).Nodup :=
  h.sublist ((aerase_sublist l k).map Prod.fst)

/-- `remove_stream` preserves distinctness of the worker-map keys. -/
theorem nodup_keys_remove_stream (s : Streams) (url : String)
    (h : (s.map Prod.fst).Nodup) :
    (((StreamManager.remove_stream s url).1).map Prod.fst).Nodup := by
  unfold StreamManager.remove_stream
  cases halook : alookup s url with
  | some w => simpa using nodup_keys_aerase s url h
  | none => simpa using h

/-- `add_stream` preserves distinctness of the worker-map keys. -/
theorem nodup_keys_add_stream (s : Streams) (url o : String) (n : Int)
    (r : String) (p : Bool) (h : (s.map Prod.fst).Nodup) :
    (((StreamManager.add_stream s url o n r p).1).map Prod.fst).Nodup := by
  unfold StreamManager.add_stream
  cases halook : alookup s url with
  | some w =>
    simpa using nodup_keys_aset _ url _ (nodup_keys_remove_stream s url h)
  | none => simpa using nodup_keys_aset _ url _ h

/-- The `stop_all` loop preserves distinctness of the worker-map keys. -/
theorem nodup_keys_stopAllGo :
    ∀ (urls : List String) (s : Streams), (s.map Prod.fst).Nodup →
      (((StreamManager.stopAllGo urls s).1).map Prod.fst).Nodup
  | [], _, h => h
  | url :: rest, s, h => by
    rw [StreamManager.stopAllGo]
    exact nodup_keys_stopAllGo rest _ (nodup_keys_remove_stream s url h)

/-- Every single manager operation preserves distinctness of the
worker-map keys. -/
theorem nodup_keys_applyOp (s : Streams) (op : ManagerOp)
    (h : (s.map Prod.fst).Nodup) :
    ((StreamManager.applyOp s op).map Prod.fst).Nodup := by
  cases op with
  | add url o n r p => exact nodup_keys_add_stream s url o n r p h
  | remove url => exact nodup_keys_remove_stream s url h
  | updateInterval n =>
    have heq := update_interval_eq s n h
    simp only [StreamManager.applyOp, heq]
    simpa [Function.comp] using h
  | stopAllOp => exact nodup_keys_stopAllGo (s.map Prod.fst) s h

/-- Key distinctness is preserved along any operation sequence. -/
theorem nodup_keys_foldl :
    ∀ (ops : List ManagerOp) (s : Streams), (s.map Prod.fst).Nodup →
      ((ops.foldl StreamManager.applyOp s).map Prod.fst).Nodup
  | [], _, h => h
  | op :: rest, s, h =>
    nodup_keys_foldl rest _ (nodup_keys_applyOp s op h)

/-- Claim C6: under every sequence of `add_stream` / `remove_stream` /
`update_interval` / `stop_all` operations from the initial empty map, the
supervisor's map never holds two workers for the same stream id; and
`add_stream` on an id that is already present first stops and removes the
existing worker (the stop call precedes the start call, and the old binding
is gone) before inserting and starting the new one. -/
theorem worker_map_unique_ids :
    (∀ ops : List ManagerOp,
      ((StreamManager.runOps ops).map Prod.fst).Nodup) ∧
    (∀ (s : Streams) (url o : String) (n : Int) (r : String) (p : Bool)
        (w : Worker), (s.map Prod.fst).Nodup → alookup s url = some w →
      StreamManager.add_stream s url o n r p =
        (aerase s url ++ [(url, Worker.mk url o n r p)],
          Act.stop url :: Act.start url ::
            (if p then [Act.pauseStream url] else [])) ∧
      alookup (aerase s url) url = none) := by
  constructor
  · intro ops
    exact nodup_keys_foldl ops [] (by simp)
  · intro s url o n r p w hnd hl
    have hmem := not_mem_keys_aerase_self s url hnd
    have hnone := alookup_eq_none_of_not_mem _ url hmem
    have haset := aset_append_of_not_mem (aerase s url) url
      (Worker.mk url o n r p) hmem
    refine ⟨?_, hnone⟩
    simp [StreamManager.add_stream, StreamManager.remove_stream, hl, haset]

/-- Witness for C6: re-adding the already-present id `"a"` stops and removes
the old worker before starting the new one. -/
theorem worker_map_unique_ids_witness :
    StreamManager.add_stream [("a", Worker.mk "a" "out" 60 "1080p" false)]
        "a" "out2" 30 "720p" false =
      (aerase [("a", Worker.mk "a" "out" 60 "1080p" false)] "a" ++
          [("a", Worker.mk "a" "out2" 30 "720p" false)],
        Act.stop "a" :: Act.start "a" ::
          (if false then [Act.pauseStream "a"] else [])) ∧
    alookup (aerase [("a", Worker.mk "a" "out" 60 "1080p" false)] "a") "a" =
      none :=
  worker_map_unique_ids.2 [("a", Worker.mk "a" "out" 60 "1080p" false)]
    "a" "out2" 30 "720p" false (Worker.mk "a" "out" 60 "1080p" false)
    (by decide) (by decide)

/-- Claim C3: an interval change stops and recreates every running worker
with the new interval, preserving each worker's stream id, output path and
resolution (one stop and one start per worker), and the stream-info cache is
carried through unchanged — no entry is evicted. -/
theorem interval_change_restarts_and_keeps_cache (sys : CaptureSystem)
    (n : Int) (hnd : (sys.streams.map Prod.fst).Nodup) :
    (App.set_interval sys n).1.cache = sys.cache ∧
    (App.set_interval sys n).1.streams =
      sys.streams.map (fun p =>
        (p.1, Worker.mk p.1 p.2.output_path n p.2.resolution false)) ∧
    (App.set_interval sys n).2 = restartActs sys.streams := by
  refine ⟨rfl, ?_, ?_⟩ <;>
    simp [App.set_interval, update_interval_eq sys.streams n hnd]

/-- Witness for C3: two configured streams, interval changed from 60s to
30s, one cached entry. -/
theorem interval_change_restarts_witness :
    (App.set_interval
        ⟨[("a", Worker.mk "a" "out" 60 "1080p" false),
          ("b", Worker.mk "b" "out" 60 "720p" false)],
          [("a", (StreamInfo.mk "a" "1080p" "1080p" "T" "f1", 0))]⟩
        30).1.cache =
      [("a", (StreamInfo.mk "a" "1080p" "1080p" "T" "f1", 0))] ∧
    (App.set_interval
        ⟨[("a", Worker.mk "a" "out" 60 "1080p" false),
          ("b", Worker.mk "b" "out" 60 "720p" false)],
          [("a", (StreamInfo.mk "a" "1080p" "1080p" "T" "f1", 0))]⟩
        30).1.streams =
      [("a", Worker.mk "a" "out" 60 "1080p" false),
        ("b", Worker.mk "b" "out" 60 "720p" false)].map (fun p =>
          (p.1, Worker.mk p.1 p.2.output_path 30 p.2.resolution false)) ∧
    (App.set_interval
        ⟨[("a", Worker.mk "a" "out" 60 "1080p" false),
          ("b", Worker.mk "b" "out" 60 "720p" false)],
          [("a", (StreamInfo.mk "a" "1080p" "1080p" "T" "f1", 0))]⟩
        30).2 =
      restartActs [("a", Worker.mk "a" "out" 60 "1080p" false),
        ("b", Worker.mk "b" "out" 60 "720p" false)] :=
  interval_change_restarts_and_keeps_cache
    ⟨[("a", Worker.mk "a" "out" 60 "1080p" false),
      ("b", Worker.mk "b" "out" 60 "720p" false)],
      [("a", (StreamInfo.mk "a" "1080p" "1080p" "T" "f1", 0))]⟩
    30 (by decide)

/-- After the replacement loop no invalid character remains (each was
rewritten to an underscore, which is not itself invalid). -/
theorem contains_replaceInvalid (l : List Char) :
    ∀ c ∈ replaceInvalid l, invalidChars.contains c = false := by
  intro c hc
  rcases List.mem_map.1 hc with ⟨c0, _, heq⟩
  by_cases h : invalidChars.contains c0
  · rw [← heq, if_pos h]
    decide
  · rw [← heq, if_neg h]
    simpa using h

/-- Characters surviving the ASCII filter are ASCII and come from the
input. -/
theorem mem_asciiOnly (l : List Char) (c : Char) (hc : c ∈ asciiOnly l) :
    c.toNat < 128 ∧ c ∈ l := by
  have h := List.mem_filter.1 hc
  exact ⟨by simpa using h.2, h.1⟩

/-- A successful last-dot split reassembles to the input. -/
theorem splitAtLastDot_append :
    ∀ (l b e : List Char), splitAtLastDot l = some (b, e) → b ++ e = l
  | [], b, e, h => by simp [splitAtLastDot] at h
  | c :: cs, b, e, h => by
    rw [splitAtLastDot] at h
    cases hr : splitAtLastDot cs with
    | some r =>
      rw [hr] at h
      cases h
      simpa using splitAtLastDot_append cs r.1 r.2 (by rw [hr])
    | none =>
      rw [hr] at h
      by_cases hdot : c = '.'
      · rw [if_pos hdot] at h
        cases h
        rfl
      · rw [if_neg hdot] at h
        cases h

/-- `splitext` reassembles to the input: root ++ ext = name. -/
theorem splitext_append (l : List Char) :
    (splitext l).1 ++ (splitext l).2 = l := by
  rw [splitext]
  cases hr : splitAtLastDot l with
  | none => simp
  | some r =>
    by_cases hall : r.1.all (· = '.')
    · simp [hall]
    · simpa [hall] using splitAtLastDot_append l r.1 r.2 (by rw [hr])

/-- Length limiting introduces no character that was not in the input. -/
theorem mem_limitLength (l : List Char) (c : Char)
    (hc : c ∈ limitLength l) : c ∈ l := by
  rw [limitLength] at hc
  split at hc
  · rw [← splitext_append l]
    rcases List.mem_append.1 hc with h1 | h1
    · exact List.mem_append.2 (Or.inl ((List.take_sublist _ _).mem h1))
    · exact List.mem_append.2 (Or.inr h1)
  · exact hc

/-- Stripping introduces no character that was not in the input. -/
theorem mem_pyStrip (l : List Char) (c : Char) (hc : c ∈ pyStrip l) :
    c ∈ l := by
  rw [pyStrip] at hc
  rw [List.mem_reverse] at hc
  have h1 := (List.dropWhile_sublist _).mem hc
  rw [List.mem_reverse] at h1
  exact (List.dropWhile_sublist _).mem h1

/-- The head surviving `dropWhile` does not satisfy the dropped predicate. -/
theorem head?_dropWhile_not (p : Char → Bool) :
    ∀ (l : List Char) (c : Char), (l.dropWhile p).head? = some c →
      p c = false
  | [], c, h => by simp [List.dropWhile] at h
  | a :: rest, c, h => by
    rw [List.dropWhile] at h
    by_cases hp : p a
    · rw [hp] at h
      simp only [cond_true] at h
      exact head?_dropWhile_not p rest c h
    · rw [Bool.not_eq_true] at hp
      rw [hp] at h
      simp only [cond_false, List.head?_cons, Option.some.injEq] at h
      rw [← h]
      exact hp

/-- `dropWhile` keeps the last element when its result is nonempty. -/
theorem getLast?_dropWhile_ne_nil (p : Char → Bool) :
    ∀ (l : List Char), l.dropWhile p ≠ [] →
      (l.dropWhile p).getLast? = l.getLast?
  | [], _ => rfl
  | a :: rest, h => by
    rw [List.dropWhile] at h ⊢
    by_cases hp : p a
    · rw [hp] at h ⊢
      simp only [cond_true] at h ⊢
      cases rest with
      | nil => simp [List.dropWhile] at h
      | cons b rest2 =>
        rw [List.getLast?_cons_cons]
        exact getLast?_dropWhile_ne_nil p (b :: rest2) h
    · rw [Bool.not_eq_true] at hp
      rw [hp]

/-- Claim C10: for every input, `_clean_filename` returns a string whose
characters are all ASCII and none of which is one of the nine invalid
filename characters, and whose first and last characters (when present)
are not whitespace. -/
theorem clean_filename_sanitizes (l : List Char) :
    (clean_filename l).all goodChar = true ∧
    Option.all (fun c => !(isPySpace c)) (clean_filename l).head? = true ∧
    Option.all (fun c => !(isPySpace c)) (clean_filename l).getLast? =
      true := by
  refine ⟨?_, ?_, ?_⟩
  · apply List.all_eq_true.2
    intro c hc
    have hc2 := mem_limitLength _ c (mem_pyStrip _ c hc)
    obtain ⟨h128, hc3⟩ := mem_asciiOnly _ c hc2
    have hcont := contains_replaceInvalid l c hc3
    have hnotin : c ∉ invalidChars := by simpa using hcont
    simp [goodChar, h128, hnotin]
  · rw [clean_filename, pyStrip, List.head?_reverse]
    cases hm : (List.dropWhile isPySpace
        ((List.dropWhile isPySpace
          (limitLength (asciiOnly (replaceInvalid l)))).reverse)) with
    | nil => simp [hm]
    | cons a m2 =>
      rw [← hm]
      rw [getLast?_dropWhile_ne_nil isPySpace _ (by rw [hm]; simp),
        List.getLast?_reverse]
      cases hh : (List.dropWhile isPySpace
          (limitLength (asciiOnly (replaceInvalid l)))).head? with
      | none => simp
      | some c =>
        have := head?_dropWhile_not isPySpace _ c hh
        simp [this]
  · rw [clean_filename, pyStrip, List.getLast?_reverse]
    cases hh : (List.dropWhile isPySpace
        ((List.dropWhile isPySpace
          (limitLength (asciiOnly (replaceInvalid l)))).reverse)).head? with
    | none => simp
    | some c =>
      have := head?_dropWhile_not isPySpace _ c hh
      simp [this]
